import Mathlib

/-!
Verification of the ORE staking optimizer (`main.py`).

The core consists of a valuation model (`compute_expected_return_and_components`,
`compute_ev`) and a greedy discrete allocator (`greedy_optimize`).  Stake vectors
are modelled as `List ℚ` (exact rational arithmetic standing for the real-number
semantics of the Python floats); fallible operations (the `assert n == 25` and
the `ZeroDivisionError` raised by `budget / unit` when `unit = 0`) are modelled
by an `Option` result, `none` meaning the call raises.
-/

namespace OreBot

open Finset

/-- Result record of `compute_expected_return_and_components`. -/
structure Components where
  expected_return : ℚ
  expected_kept_stakes : ℚ
  expected_rewards_before_fee : ℚ
  ore_expected_raw : ℚ
deriving Repr, DecidableEq

/-- Result record of `compute_ev` (the fields the core consumes). -/
structure EvResult where
  ev_sol_after_fees : ℚ
  expected_return_after_protocol_fee : ℚ
  cost_gross : ℚ
  components : Components
deriving Repr, DecidableEq

/-- `compute_expected_return_and_components(T_net, s_net)` from `main.py`:
`n = len(T_net)`; `total_net = T_net + s_net` elementwise; the loop over
`i in range(n)` skips blocks with `total_net[i] <= 0` and otherwise adds
`s_net[i] + (s_net[i]/denom) * (total_net_sum - denom)` to the expected return
and `s_net[i]/denom` to the raw ORE accumulator; both are divided by `n`,
and `expected_kept_stakes = s_net.sum() / n`. -/
def compute_expected_return_and_components (T_net s_net : List ℚ) : Components :=
  let n := T_net.length
  let total_net := List.zipWith (· + ·) T_net s_net
  let total_net_sum := total_net.sum
  let expected_return_acc :=
    ∑ i in Finset.range n,
      (if total_net.getD i 0 ≤ 0 then 0
       else s_net.getD i 0 +
         (s_net.getD i 0 / total_net.getD i 0) * (total_net_sum - total_net.getD i 0))
  let ore_expected_raw_acc :=
    ∑ i in Finset.range n,
      (if total_net.getD i 0 ≤ 0 then 0 else s_net.getD i 0 / total_net.getD i 0)
  let expected_return := expected_return_acc / (n : ℚ)
  let expected_kept_stakes := s_net.sum / (n : ℚ)
  { expected_return := expected_return
    expected_kept_stakes := expected_kept_stakes
    expected_rewards_before_fee := expected_return - expected_kept_stakes
    ore_expected_raw := ore_expected_raw_acc / (n : ℚ) }

/-- `compute_ev(T_other_gross, s_alloc_gross, protocol_fee)` from `main.py`:
no admin fee (`T_net = T_other_gross`, `s_net = s_alloc_gross`), the protocol
fee is taken from the reward portion only, and
`ev_sol_after_fees = expected_return_after_protocol_fee - cost_gross`. -/
def compute_ev (T_other_gross s_alloc_gross : List ℚ) (protocol_fee : ℚ) : EvResult :=
  let comps := compute_expected_return_and_components T_other_gross s_alloc_gross
  let expected_rewards_after_fee := comps.expected_rewards_before_fee * (1 - protocol_fee)
  let expected_return_after_protocol_fee :=
    comps.expected_kept_stakes + expected_rewards_after_fee
  let cost_gross := s_alloc_gross.sum
  { ev_sol_after_fees := expected_return_after_protocol_fee - cost_gross
    expected_return_after_protocol_fee := expected_return_after_protocol_fee
    cost_gross := cost_gross
    components := comps }

/-- Python's `round` to the nearest integer with ties going to the even
integer (banker's rounding), as used in `int(round(budget / unit))`. -/
def pyRound (q : ℚ) : ℤ :=
  if q - (⌊q⌋ : ℚ) < 1 / 2 then ⌊q⌋
  else if (1 : ℚ) / 2 < q - (⌊q⌋ : ℚ) then ⌊q⌋ + 1
  else if 2 ∣ ⌊q⌋ then ⌊q⌋ else ⌊q⌋ + 1

/-- The inner selection scan of `greedy_optimize`: starting from
`best_idx = None`, `best_delta = -1e18`, walk the candidate deltas in index
order and record `(some i, delta)` whenever `delta > best_delta` (strict). -/
def selGo : ℕ → Option ℕ → ℚ → List ℚ → Option ℕ × ℚ
  | _, best_idx, best_delta, [] => (best_idx, best_delta)
  | i, best_idx, best_delta, delta :: rest =>
    if best_delta < delta then selGo (i + 1) (some i) delta rest
    else selGo (i + 1) best_idx best_delta rest

/-- The full candidate scan of one `greedy_optimize` iteration
(`best_idx = None`, `best_delta = -1e18`, then the loop over blocks). -/
def selectBest (deltas : List ℚ) : Option ℕ × ℚ :=
  selGo 0 none (-(10 ^ 18 : ℚ)) deltas

/-- The list of marginal deltas computed in one `greedy_optimize` iteration:
for each block `i`, the EV of the current allocation with one `unit` added at
`i` minus the base EV. -/
def marginalDeltas (T : List ℚ) (unit protocol_fee : ℚ) (s : List ℚ) : List ℚ :=
  let base_score := (compute_ev T s protocol_fee).ev_sol_after_fees
  (List.range T.length).map fun i =>
    (compute_ev T (s.set i (s.getD i 0 + unit)) protocol_fee).ev_sol_after_fees - base_score

/-- The stopping tolerance `1e-12` of `greedy_optimize`. -/
def tol : ℚ := 1 / 10 ^ 12

/-- The `for step in range(max_iters)` loop of `greedy_optimize`: `fuel` is the
number of remaining loop iterations; the loop breaks when `remaining_units <= 0`
or when the best delta is `<= 1e-12`, and otherwise commits one `unit` at the
selected index.  The `none` branch of the match is unreachable (the best delta
exceeds the `-1e18` initializer whenever it exceeds the tolerance). -/
def greedyLoop (T : List ℚ) (unit protocol_fee : ℚ) : ℕ → List ℚ → ℤ → List ℚ
  | 0, s, _ => s
  | fuel + 1, s, remaining_units =>
    if remaining_units ≤ 0 then s
    else if (selectBest (marginalDeltas T unit protocol_fee s)).2 ≤ tol then s
    else
      match (selectBest (marginalDeltas T unit protocol_fee s)).1 with
      | none => s
      | some best_idx =>
        greedyLoop T unit protocol_fee fuel
          (s.set best_idx (s.getD best_idx 0 + unit)) (remaining_units - 1)

/-- `greedy_optimize(T_other_gross, budget, unit, protocol_fee, max_iters)` from
`main.py`.  `none` models a raised exception: the `assert n == 25` fails for any
other length, and `budget / unit` raises `ZeroDivisionError` when `unit = 0`.
`remaining_units = int(round(budget / unit))`; if it is `<= 0` the all-zero
vector is returned at once; `max_iters` defaults to `remaining_units`. -/
def greedy_optimize (T_other_gross : List ℚ) (budget unit protocol_fee : ℚ)
    (max_iters : Option ℤ) : Option (List ℚ) :=
  if T_other_gross.length = 25 then
    if unit = 0 then none
    else if pyRound (budget / unit) ≤ 0 then
      some (List.replicate T_other_gross.length (0 : ℚ))
    else
      some (greedyLoop T_other_gross unit protocol_fee
        ((max_iters.getD (pyRound (budget / unit))).toNat)
        (List.replicate T_other_gross.length (0 : ℚ)) (pyRound (budget / unit)))
  else none

/-- The per-block pool total `total_i = opponentStakes[i] + allocation[i]` as
the specification states it (spec-side definition for the refinement claim). -/
def specTotal (T A : List ℚ) (i : ℕ) : ℚ := T.getD i 0 + A.getD i 0

/-- `Σ_j total_j` as the specification states it. -/
def specSumOfAllTotals (T A : List ℚ) : ℚ :=
  ∑ j in Finset.range T.length, specTotal T A j

/-- `payout_i = allocation[i] + (allocation[i]/total_i) · (Σ_j total_j − total_i)`
as the specification states it, with a block of `total_i ≤ 0` contributing zero. -/
def specPayout (T A : List ℚ) (i : ℕ) : ℚ :=
  if specTotal T A i ≤ 0 then 0
  else A.getD i 0 + (A.getD i 0 / specTotal T A i) * (specSumOfAllTotals T A - specTotal T A i)

/-- The expected return as the specification states it: the uniform mean of
`payout_i` over the `n` blocks. -/
def specExpectedReturn (T A : List ℚ) : ℚ :=
  (∑ i in Finset.range T.length, specPayout T A i) / (T.length : ℚ)

/-- The returned `ev` as the specification states it:
`expectedKeptStake + expectedRewardBeforeFee · (1 − feeRate) − Σ allocation`. -/
def specEv (T A : List ℚ) (feeRate : ℚ) : ℚ :=
  A.sum / (T.length : ℚ) +
    (specExpectedReturn T A - A.sum / (T.length : ℚ)) * (1 - feeRate) - A.sum

/-- A sample length-25 grid used for concrete instances. -/
def sampleT : List ℚ := List.replicate 25 1

/-- The grid of the C4 counterexample: one nearly-empty block among 24 equal
blocks, so topping up block 0 stays profitable. -/
def Tc4 : List ℚ := 1 / 1000 :: List.replicate 24 1

/-- The allocation `greedy_optimize` returns on the C4 counterexample input:
both rounded units land on block 0. -/
def c4result : List ℚ := 1 / 500 :: List.replicate 24 0

section Helpers

/-- A list of non-negative entries has non-negative `getD`. -/
lemma getD_nonneg (l : List ℚ) (i : ℕ) (h : ∀ x ∈ l, 0 ≤ x) : 0 ≤ l.getD i 0 := by
  rcases lt_or_le i l.length with hi | hi
  · rw [List.getD_eq_getElem l 0 hi]
    exact h _ (List.getElem_mem hi)
  · rw [List.getD_eq_default l 0 hi]

/-- A list sum as a sum over its index range. -/
lemma list_sum_eq_range (l : List ℚ) :
    l.sum = ∑ i in Finset.range l.length, l.getD i 0 := by
  induction l with
  | nil => simp
  | cons a t ih =>
    rw [List.sum_cons, List.length_cons, Finset.sum_range_succ']
    simp only [List.getD_cons_succ, List.getD_cons_zero]
    rw [← ih, add_comm]

/-- Indexing the elementwise sum of two equal-length lists. -/
lemma zipWith_add_getD (T A : List ℚ) (h : A.length = T.length) (i : ℕ)
    (hi : i < T.length) :
    (List.zipWith (· + ·) T A).getD i 0 = T.getD i 0 + A.getD i 0 := by
  have hlen : (List.zipWith (· + ·) T A).length = T.length := by
    rw [List.length_zipWith, h, min_self]
  rw [List.getD_eq_getElem _ 0 (by rw [hlen]; exact hi),
    List.getD_eq_getElem T 0 hi, List.getD_eq_getElem A 0 (h ▸ hi)]
  exact List.getElem_zipWith

lemma getD_replicate_zero (n i : ℕ) : (List.replicate n (0 : ℚ)).getD i 0 = 0 := by
  rcases lt_or_le i n with h | h
  · rw [List.getD_eq_getElem _ 0 (by simpa using h)]
    exact List.getElem_replicate _ _
  · exact List.getD_eq_default _ 0 (by simpa using h)

/-- If no candidate beats the running best, the scan returns the accumulator. -/
lemma selGo_no_improve : ∀ (l : List ℚ) (k : ℕ) (bi : Option ℕ) (bd : ℚ),
    (∀ x ∈ l, x ≤ bd) → selGo k bi bd l = (bi, bd)
  | [], _, _, _, _ => rfl
  | d :: rest, k, bi, bd, h => by
    rw [selGo, if_neg (not_lt.mpr (h d (List.mem_cons_self d rest)))]
    exact selGo_no_improve rest (k + 1) bi bd fun x hx => h x (List.mem_cons_of_mem d hx)

/-- The scan lands on the first index attaining the maximum, as long as the
running best is still below that maximum. -/
lemma selGo_spec : ∀ (l : List ℚ) (i k : ℕ) (bi : Option ℕ) (bd : ℚ),
    i < l.length →
    (∀ j, j < l.length → l.getD j 0 ≤ l.getD i 0) →
    (∀ j, j < i → l.getD j 0 < l.getD i 0) →
    bd < l.getD i 0 →
    selGo k bi bd l = (some (k + i), l.getD i 0)
  | [], i, _, _, _, hi, _, _, _ => absurd hi (by simp)
  | d :: rest, 0, k, bi, bd, _, hmax, _, hbd => by
    rw [List.getD_cons_zero] at hbd ⊢
    rw [selGo, if_pos hbd]
    rw [selGo_no_improve rest (k + 1) (some k) d ?hle]
    · simp
    case hle =>
      intro x hx
      obtain ⟨j, hj, rfl⟩ := List.mem_iff_getElem.mp hx
      have h2 := hmax (j + 1) (by simpa using Nat.succ_lt_succ hj)
      rw [List.getD_cons_succ, List.getD_cons_zero, List.getD_eq_getElem rest 0 hj] at h2
      exact h2
  | d :: rest, i + 1, k, bi, bd, hi, hmax, hfirst, hbd => by
    have hd : d < rest.getD i 0 := by
      have := hfirst 0 (Nat.succ_pos i)
      simpa [List.getD_cons_zero, List.getD_cons_succ] using this
    have hi' : i < rest.length := by simpa using hi
    have hmax' : ∀ j, j < rest.length → rest.getD j 0 ≤ rest.getD i 0 := by
      intro j hj
      have := hmax (j + 1) (by simpa using Nat.succ_lt_succ hj)
      simpa [List.getD_cons_succ] using this
    have hfirst' : ∀ j, j < i → rest.getD j 0 < rest.getD i 0 := by
      intro j hj
      have := hfirst (j + 1) (Nat.succ_lt_succ hj)
      simpa [List.getD_cons_succ] using this
    rw [List.getD_cons_succ] at hbd ⊢
    rw [selGo]
    by_cases hc : bd < d
    · rw [if_pos hc, selGo_spec rest i (k + 1) (some k) d hi' hmax' hfirst' hd]
      congr 2
      omega
    · rw [if_neg hc, selGo_spec rest i (k + 1) bi bd hi' hmax' hfirst' hbd]
      congr 2
      omega

/-- The scan either keeps the accumulator or records some index. -/
lemma selGo_some_or : ∀ (l : List ℚ) (k : ℕ) (bi : Option ℕ) (bd : ℚ),
    selGo k bi bd l = (bi, bd) ∨ ∃ j, (selGo k bi bd l).1 = some j
  | [], _, _, _ => Or.inl rfl
  | d :: rest, k, bi, bd => by
    rw [selGo]
    by_cases hc : bd < d
    · rw [if_pos hc]
      rcases selGo_some_or rest (k + 1) (some k) d with h | h
      · exact Or.inr ⟨k, by rw [h]⟩
      · exact Or.inr h
    · rw [if_neg hc]
      exact selGo_some_or rest (k + 1) bi bd

/-- If the best delta exceeds the `-1e18` initializer, an index was recorded. -/
lemma selectBest_isSome (deltas : List ℚ)
    (h : -(10 ^ 18 : ℚ) < (selectBest deltas).2) :
    ∃ j, (selectBest deltas).1 = some j := by
  rcases selGo_some_or deltas 0 none (-(10 ^ 18 : ℚ)) with h1 | h1
  · rw [selectBest, h1] at h
    exact absurd h (lt_irrefl _)
  · exact h1

/-- One unfolding of the allocation loop. -/
lemma greedyLoop_succ (T : List ℚ) (u f : ℚ) (fuel : ℕ) (s : List ℚ) (r : ℤ) :
    greedyLoop T u f (fuel + 1) s r =
      if r ≤ 0 then s
      else if (selectBest (marginalDeltas T u f s)).2 ≤ tol then s
      else
        match (selectBest (marginalDeltas T u f s)).1 with
        | none => s
        | some i => greedyLoop T u f fuel (s.set i (s.getD i 0 + u)) (r - 1) := rfl

/-- The loop preserves the allocation length. -/
lemma greedyLoop_length (T : List ℚ) (u f : ℚ) :
    ∀ (fuel : ℕ) (s : List ℚ) (r : ℤ), (greedyLoop T u f fuel s r).length = s.length := by
  intro fuel
  induction fuel with
  | zero => intro s r; rfl
  | succ fuel ih =>
    intro s r
    rw [greedyLoop_succ]
    split_ifs
    · rfl
    · rfl
    · cases hsel : (selectBest (marginalDeltas T u f s)).1 with
      | none => rfl
      | some i =>
        show (greedyLoop T u f fuel (s.set i (s.getD i 0 + u)) (r - 1)).length = s.length
        rw [ih, List.length_set]

/-- Adding `u ≥ 0` at one position raises the sum by at most `u`. -/
lemma sum_set_le (s : List ℚ) (i : ℕ) (u : ℚ) (hu : 0 ≤ u) :
    (s.set i (s.getD i 0 + u)).sum ≤ s.sum + u := by
  rw [List.sum_set']
  split
  · rename_i h
    rw [List.getD_eq_getElem s 0 h]
    apply le_of_eq
    ring
  · linarith

/-- The loop never commits more than `max r 0` units of size `u`. -/
lemma greedyLoop_sum_le (T : List ℚ) (u f : ℚ) (hu : 0 ≤ u) :
    ∀ (fuel : ℕ) (s : List ℚ) (r : ℤ),
      (greedyLoop T u f fuel s r).sum ≤ s.sum + (max r 0 : ℤ) * u := by
  intro fuel
  induction fuel with
  | zero =>
    intro s r
    have hnn : (0 : ℚ) ≤ ((max r 0 : ℤ) : ℚ) * u :=
      mul_nonneg (by exact_mod_cast le_max_right r 0) hu
    show (greedyLoop T u f 0 s r).sum ≤ s.sum + ((max r 0 : ℤ) : ℚ) * u
    rw [show greedyLoop T u f 0 s r = s from rfl]
    linarith
  | succ fuel ih =>
    intro s r
    have hnn : (0 : ℚ) ≤ ((max r 0 : ℤ) : ℚ) * u :=
      mul_nonneg (by exact_mod_cast le_max_right r 0) hu
    rw [greedyLoop_succ]
    split_ifs
    · linarith
    · linarith
    · rename_i hr _
      cases hsel : (selectBest (marginalDeltas T u f s)).1 with
      | none => linarith
      | some i =>
        have h1 : (greedyLoop T u f fuel (s.set i (s.getD i 0 + u)) (r - 1)).sum ≤
            (s.set i (s.getD i 0 + u)).sum + ((max (r - 1) 0 : ℤ) : ℚ) * u := ih _ _
        have h2 := sum_set_le s i u hu
        have hr1 : (1 : ℤ) ≤ r := by omega
        have hmax1 : max (r - 1) 0 = r - 1 := max_eq_left (by omega)
        have hmax2 : max r 0 = r := max_eq_left (by omega)
        show (greedyLoop T u f fuel (s.set i (s.getD i 0 + u)) (r - 1)).sum ≤
          s.sum + ((max r 0 : ℤ) : ℚ) * u
        rw [hmax1] at h1
        rw [hmax2]
        push_cast at h1 ⊢
        linarith

/-- `pyRound` is the floor or the floor plus one. -/
lemma pyRound_cases (q : ℚ) : pyRound q = ⌊q⌋ ∨ pyRound q = ⌊q⌋ + 1 := by
  unfold pyRound
  split_ifs <;> simp

lemma pyRound_nonneg (q : ℚ) (h : 0 ≤ q) : 0 ≤ pyRound q := by
  have hf : 0 ≤ ⌊q⌋ := Int.floor_nonneg.mpr h
  rcases pyRound_cases q with h1 | h1 <;> omega

lemma pyRound_nonpos (q : ℚ) (h : q ≤ 0) : pyRound q ≤ 0 := by
  have hf : ⌊q⌋ ≤ 0 := Int.floor_nonpos h
  unfold pyRound
  split_ifs with h1 h2 h3
  · exact hf
  · rcases eq_or_lt_of_le hf with he | hlt
    · rw [he] at h2
      norm_num at h2
      linarith
    · omega
  · exact hf
  · have hq : q - (⌊q⌋ : ℚ) = 1 / 2 := le_antisymm (not_lt.mp h2) (not_lt.mp h1)
    have hle : (⌊q⌋ : ℚ) ≤ -(1 / 2) := by linarith
    have hneg : ⌊q⌋ < 0 := by
      by_contra hcon
      push_neg at hcon
      have : (0 : ℚ) ≤ (⌊q⌋ : ℚ) := by exact_mod_cast hcon
      linarith
    omega

/-- Shared helper: a non-positive budget (with positive unit and a length-25
grid) makes `greedy_optimize` return the all-zero allocation. -/
lemma optimize_nonpos_budget (T : List ℚ) (budget u f : ℚ) (m : Option ℤ)
    (h25 : T.length = 25) (hu : 0 < u) (hb : budget ≤ 0) :
    greedy_optimize T budget u f m = some (List.replicate 25 (0 : ℚ)) := by
  have hq : budget / u ≤ 0 := div_nonpos_iff.mpr (Or.inr ⟨hb, hu.le⟩)
  have hr : pyRound (budget / u) ≤ 0 := pyRound_nonpos _ hq
  unfold greedy_optimize
  rw [if_pos h25, if_neg (ne_of_gt hu), if_pos hr, h25]

/-- Shared helper: the EV of the all-zero allocation is exactly zero. -/
lemma ev_zero_alloc (T : List ℚ) (f : ℚ) :
    (compute_ev T (List.replicate T.length (0 : ℚ)) f).ev_sol_after_fees = 0 := by
  simp [compute_ev, compute_expected_return_and_components, getD_replicate_zero,
    List.sum_replicate]

/-- The reward component is definitionally the expected return minus the
expected kept stakes. -/
lemma rewards_eq_sub (T A : List ℚ) :
    (compute_expected_return_and_components T A).expected_rewards_before_fee =
      (compute_expected_return_and_components T A).expected_return -
        (compute_expected_return_and_components T A).expected_kept_stakes := rfl

/-- The code's components agree with the specification's formulas when the two
vectors have equal length. -/
lemma components_eq_spec (T A : List ℚ) (hlen : A.length = T.length) :
    (compute_expected_return_and_components T A).expected_return = specExpectedReturn T A ∧
    (compute_expected_return_and_components T A).expected_kept_stakes =
      A.sum / (T.length : ℚ) := by
  have hzlen : (List.zipWith (· + ·) T A).length = T.length := by
    rw [List.length_zipWith, hlen, min_self]
  have htot : ∀ i, i < T.length →
      (List.zipWith (· + ·) T A).getD i 0 = specTotal T A i :=
    fun i hi => zipWith_add_getD T A hlen i hi
  have hsum : (List.zipWith (· + ·) T A).sum = specSumOfAllTotals T A := by
    rw [list_sum_eq_range, hzlen, specSumOfAllTotals]
    exact Finset.sum_congr rfl fun i hi => htot i (Finset.mem_range.mp hi)
  constructor
  · simp only [compute_expected_return_and_components, specExpectedReturn]
    congr 1
    refine Finset.sum_congr rfl fun i hi => ?_
    rw [htot i (Finset.mem_range.mp hi), hsum, specPayout]
  · simp only [compute_expected_return_and_components]

/-- The reward-before-fee component is non-negative on non-negative inputs of
equal length. -/
lemma rewards_nonneg (T A : List ℚ) (hlen : A.length = T.length)
    (hT : ∀ x ∈ T, 0 ≤ x) (hA : ∀ x ∈ A, 0 ≤ x) :
    0 ≤ (compute_expected_return_and_components T A).expected_rewards_before_fee := by
  have hzlen : (List.zipWith (· + ·) T A).length = T.length := by
    rw [List.length_zipWith, hlen, min_self]
  rw [rewards_eq_sub]
  simp only [compute_expected_return_and_components]
  rw [div_sub_div_same]
  apply div_nonneg _ (Nat.cast_nonneg _)
  rw [sub_nonneg]
  have hAsum : A.sum = ∑ i in Finset.range T.length, A.getD i 0 := by
    rw [list_sum_eq_range, hlen]
  rw [hAsum]
  apply Finset.sum_le_sum
  intro i hi
  have hi' : i < T.length := Finset.mem_range.mp hi
  have htot : (List.zipWith (· + ·) T A).getD i 0 = T.getD i 0 + A.getD i 0 :=
    zipWith_add_getD T A hlen i hi'
  by_cases hc : (List.zipWith (· + ·) T A).getD i 0 ≤ 0
  · rw [if_pos hc]
    rw [htot] at hc
    have h1 : 0 ≤ T.getD i 0 := getD_nonneg T i hT
    linarith
  · rw [if_neg hc]
    push_neg at hc
    have h1 : 0 ≤ A.getD i 0 := getD_nonneg A i hA
    have hS : (List.zipWith (· + ·) T A).getD i 0 ≤ (List.zipWith (· + ·) T A).sum := by
      rw [list_sum_eq_range, hzlen]
      exact Finset.single_le_sum (f := fun j => (List.zipWith (· + ·) T A).getD j 0)
        (fun j hj => by
          show 0 ≤ (List.zipWith (· + ·) T A).getD j 0
          rw [zipWith_add_getD T A hlen j (Finset.mem_range.mp hj)]
          exact add_nonneg (getD_nonneg T j hT) (getD_nonneg A j hA))
        (Finset.mem_range.mpr hi')
    have hterm : 0 ≤ (A.getD i 0 / (List.zipWith (· + ·) T A).getD i 0) *
        ((List.zipWith (· + ·) T A).sum - (List.zipWith (· + ·) T A).getD i 0) :=
      mul_nonneg (div_nonneg h1 hc.le) (by linarith)
    linarith

end Helpers

section Claims

/-- C1 (confirmed): for equal-length vectors with non-negative entries,
`compute_ev` computes the expected return as the uniform mean over the `n`
blocks of `payout_i = allocation[i] + (allocation[i]/total_i)·(Σ_j total_j −
total_i)` with `total_i ≤ 0` blocks contributing zero, and the returned `ev`
equals `expectedKeptStake + expectedRewardBeforeFee·(1 − feeRate) − Σ
allocation`. -/
theorem C1_evaluate_matches_spec (T A : List ℚ) (f : ℚ)
    (hlen : A.length = T.length)
    (hT : ∀ x ∈ T, 0 ≤ x) (hA : ∀ x ∈ A, 0 ≤ x) :
    (compute_ev T A f).components.expected_return = specExpectedReturn T A ∧
    (compute_ev T A f).ev_sol_after_fees = specEv T A f := by
  obtain ⟨h1, h2⟩ := components_eq_spec T A hlen
  constructor
  · simpa only [compute_ev] using h1
  · simp only [compute_ev]
    rw [rewards_eq_sub, h1, h2]
    rfl

/-- C2 (confirmed): in each iteration of the optimizer, if `i` is the lowest
index attaining the maximal marginal delta (every delta is at most `delta_i`
and every earlier delta is strictly below it) and that delta exceeds the
tolerance, the scan records exactly `(some i, delta_i)` — a later equal delta
never replaces a recorded maximum — and the loop commits the unit at `i`. -/
theorem C2_tie_break_lowest_index (T : List ℚ) (u f : ℚ) (s : List ℚ)
    (fuel : ℕ) (r : ℤ) (i : ℕ)
    (hr : 0 < r)
    (hi : i < (marginalDeltas T u f s).length)
    (hmax : ∀ j, j < (marginalDeltas T u f s).length →
      (marginalDeltas T u f s).getD j 0 ≤ (marginalDeltas T u f s).getD i 0)
    (hfirst : ∀ j, j < i →
      (marginalDeltas T u f s).getD j 0 < (marginalDeltas T u f s).getD i 0)
    (htol : tol < (marginalDeltas T u f s).getD i 0) :
    selectBest (marginalDeltas T u f s) = (some i, (marginalDeltas T u f s).getD i 0) ∧
    greedyLoop T u f (fuel + 1) s r =
      greedyLoop T u f fuel (s.set i (s.getD i 0 + u)) (r - 1) := by
  have hbig : -(10 ^ 18 : ℚ) < (marginalDeltas T u f s).getD i 0 :=
    lt_trans (by norm_num [tol]) htol
  have hsel : selectBest (marginalDeltas T u f s) =
      (some i, (marginalDeltas T u f s).getD i 0) := by
    rw [selectBest]
    simpa using selGo_spec (marginalDeltas T u f s) i 0 none _ hi hmax hfirst hbig
  refine ⟨hsel, ?_⟩
  rw [greedyLoop_succ, if_neg (not_le.mpr hr),
    if_neg (by rw [hsel]; exact not_le.mpr htol), hsel]

/-- C3 (confirmed): in each iteration with units remaining, if the selected
best marginal delta is at most the tolerance `1e-12` the loop returns the
current allocation unchanged; otherwise one unit is committed at the selected
index and the remaining-unit count decreases by one. -/
theorem C3_stop_or_commit (T : List ℚ) (u f : ℚ) (s : List ℚ) (fuel : ℕ)
    (r : ℤ) (hr : 0 < r) :
    ((selectBest (marginalDeltas T u f s)).2 ≤ tol →
      greedyLoop T u f (fuel + 1) s r = s) ∧
    (tol < (selectBest (marginalDeltas T u f s)).2 →
      ∃ i, (selectBest (marginalDeltas T u f s)).1 = some i ∧
        greedyLoop T u f (fuel + 1) s r =
          greedyLoop T u f fuel (s.set i (s.getD i 0 + u)) (r - 1)) := by
  constructor
  · intro h
    rw [greedyLoop_succ, if_neg (not_le.mpr hr), if_pos h]
  · intro h
    obtain ⟨i, hi⟩ := selectBest_isSome (marginalDeltas T u f s)
      (lt_trans (by norm_num [tol]) h)
    refine ⟨i, hi, ?_⟩
    rw [greedyLoop_succ, if_neg (not_le.mpr hr), if_neg (not_le.mpr h), hi]

/-- C4 (corrected): the allocator never spends more than
`int(round(budget/unit)) · unit` with Python's round-half-to-even — the
claimed `floor(budget/unit) · unit` bound fails when the fractional part of
`budget/unit` is at least one half. -/
theorem C4_budget_conservation_rounded (T : List ℚ) (budget u f : ℚ)
    (m : Option ℤ) (a : List ℚ)
    (hb : 0 ≤ budget) (hu : 0 < u)
    (ha : greedy_optimize T budget u f m = some a) :
    a.sum ≤ (pyRound (budget / u) : ℚ) * u := by
  have hr0 : 0 ≤ pyRound (budget / u) := pyRound_nonneg _ (div_nonneg hb hu.le)
  have hnn : (0 : ℚ) ≤ (pyRound (budget / u) : ℚ) * u :=
    mul_nonneg (by exact_mod_cast hr0) hu.le
  unfold greedy_optimize at ha
  by_cases h25 : T.length = 25
  · rw [if_pos h25, if_neg (ne_of_gt hu)] at ha
    by_cases hrle : pyRound (budget / u) ≤ 0
    · rw [if_pos hrle] at ha
      obtain rfl : List.replicate T.length (0 : ℚ) = a := Option.some.inj ha
      simpa [List.sum_replicate] using hnn
    · rw [if_neg hrle] at ha
      obtain rfl := Option.some.inj ha
      have hle := greedyLoop_sum_le T u f hu.le
        ((m.getD (pyRound (budget / u))).toNat)
        (List.replicate T.length (0 : ℚ)) (pyRound (budget / u))
      simp only [List.sum_replicate, smul_zero, zero_add, max_eq_left hr0] at hle
      exact hle
  · rw [if_neg h25] at ha
    exact absurd ha (by simp)

set_option maxRecDepth 100000 in
set_option maxHeartbeats 2000000 in
/-- C4 counterexample: `budget = 0.0015`, `unit = 0.001` gives
`round(budget/unit) = round(1.5) = 2` units (ties to even); both are committed
to the nearly-empty block 0, so the total spent `0.002` exceeds
`floor(budget/unit)·unit = 0.001`. -/
theorem C4_counterexample :
    greedy_optimize Tc4 (3 / 2000) (1 / 1000) 0 none = some c4result ∧
    ¬ (c4result.sum ≤ (⌊(3 / 2000 : ℚ) / (1 / 1000)⌋ : ℚ) * (1 / 1000)) :=
  ⟨by with_unfolding_all rfl, of_decide_eq_true (by with_unfolding_all rfl)⟩

/-- C5 counterexample: on the length-1 grid `[1]` — satisfying the data-model
invariants with `n = 1 ≥ 1` — `optimize` does not return an allocation: the
`assert n == 25` fails (modelled as `none`). -/
theorem C5_counterexample : greedy_optimize [(1 : ℚ)] 1 1 0 none = none := rfl

/-- C5 (corrected): `optimize` returns a well-formed (length-25) allocation
exactly on length-25 grids (with a non-zero unit); for every other length the
assertion `n == 25` fails. -/
theorem C5_defined_only_for_25 (T : List ℚ) (budget u f : ℚ) (m : Option ℤ)
    (h25 : T.length = 25) (hu : u ≠ 0) :
    ∃ a, greedy_optimize T budget u f m = some a ∧ a.length = 25 := by
  unfold greedy_optimize
  rw [if_pos h25, if_neg hu]
  by_cases hr : pyRound (budget / u) ≤ 0
  · rw [if_pos hr]
    exact ⟨_, rfl, by rw [List.length_replicate, h25]⟩
  · rw [if_neg hr]
    exact ⟨_, rfl, by rw [greedyLoop_length, List.length_replicate, h25]⟩

/-- C6 counterexample: with `unit = 0` (so `unit ≤ 0`) the claim expects the
all-zero allocation, but `budget / unit` raises `ZeroDivisionError`
(modelled as `none`). -/
theorem C6_counterexample :
    greedy_optimize sampleT 1 0 0 none = none ∧
    greedy_optimize sampleT 1 0 0 none ≠ some (List.replicate 25 (0 : ℚ)) :=
  ⟨rfl, by decide⟩

/-- C6 (corrected): on a length-25 grid, `budget ≤ 0` with `unit > 0` is a
no-op returning the all-zero allocation without error; `unit = 0` instead
raises `ZeroDivisionError`. -/
theorem C6_nonpos_budget_noop (T : List ℚ) (budget u f : ℚ) (m : Option ℤ)
    (h25 : T.length = 25) (hu : 0 < u) (hb : budget ≤ 0) :
    greedy_optimize T budget u f m = some (List.replicate 25 (0 : ℚ)) :=
  optimize_nonpos_budget T budget u f m h25 hu hb

/-- C7 counterexample: on the length-1 grid `[1]` with `budget = 0` and
`unit = 1 > 0`, `optimize` does not return the all-zero allocation: the
`assert n == 25` fails first (modelled as `none`). -/
theorem C7_counterexample :
    greedy_optimize [(1 : ℚ)] 0 1 0 none = none ∧
    greedy_optimize [(1 : ℚ)] 0 1 0 none ≠ some [(0 : ℚ)] :=
  ⟨rfl, by decide⟩

/-- C7 (corrected): restricted to length-25 grids (forced by the `assert`),
`optimize` with zero budget returns the all-zero allocation, and `evaluate`
of the all-zero allocation returns an `ev` of exactly 0 (for every grid). -/
theorem C7_zero_budget_noop (T : List ℚ) (u f : ℚ) (m : Option ℤ)
    (h25 : T.length = 25) (hu : 0 < u) :
    greedy_optimize T 0 u f m = some (List.replicate 25 (0 : ℚ)) ∧
    (compute_ev T (List.replicate T.length (0 : ℚ)) f).ev_sol_after_fees = 0 :=
  ⟨optimize_nonpos_budget T 0 u f m h25 hu le_rfl, ev_zero_alloc T f⟩

/-- C8 (confirmed): holding the equal-length non-negative stake vectors fixed,
the returned `ev` is non-increasing in the fee rate on `[0, 1)`. -/
theorem C8_fee_monotonicity (T A : List ℚ) (f1 f2 : ℚ)
    (hlen : A.length = T.length)
    (hT : ∀ x ∈ T, 0 ≤ x) (hA : ∀ x ∈ A, 0 ≤ x)
    (h1 : 0 ≤ f1) (h12 : f1 ≤ f2) (h2 : f2 < 1) :
    (compute_ev T A f2).ev_sol_after_fees ≤ (compute_ev T A f1).ev_sol_after_fees := by
  have hnn := rewards_nonneg T A hlen hT hA
  simp only [compute_ev]
  have hmul : (compute_expected_return_and_components T A).expected_rewards_before_fee
        * (1 - f2) ≤
      (compute_expected_return_and_components T A).expected_rewards_before_fee
        * (1 - f1) :=
    mul_le_mul_of_nonneg_left (by linarith) hnn
  linarith

/-- C9 (confirmed): the optimizer is a pure function of its arguments — two
calls on equal inputs return equal allocations (no randomness or hidden
state). -/
theorem C9_deterministic (T T2 : List ℚ) (b b2 u u2 f f2 : ℚ) (m m2 : Option ℤ)
    (h : T = T2 ∧ b = b2 ∧ u = u2 ∧ f = f2 ∧ m = m2) :
    greedy_optimize T b u f m = greedy_optimize T2 b2 u2 f2 m2 := by
  obtain ⟨rfl, rfl, rfl, rfl, rfl⟩ := h
  rfl

/-- C10 (confirmed): on equal-length non-negative vectors with `n ≥ 1`, the
`rawOreShare` diagnostic lies in `[0, 1]`. -/
theorem C10_rawOreShare_unit_interval (T A : List ℚ) (f : ℚ)
    (hlen : A.length = T.length) (hn : 1 ≤ T.length)
    (hT : ∀ x ∈ T, 0 ≤ x) (hA : ∀ x ∈ A, 0 ≤ x) :
    0 ≤ (compute_ev T A f).components.ore_expected_raw ∧
      (compute_ev T A f).components.ore_expected_raw ≤ 1 := by
  have hnpos : (0 : ℚ) < (T.length : ℚ) := by exact_mod_cast hn
  simp only [compute_ev, compute_expected_return_and_components]
  constructor
  · apply div_nonneg _ hnpos.le
    apply Finset.sum_nonneg
    intro i hi
    by_cases hc : (List.zipWith (· + ·) T A).getD i 0 ≤ 0
    · rw [if_pos hc]
    · rw [if_neg hc]
      push_neg at hc
      exact div_nonneg (getD_nonneg A i hA) hc.le
  · rw [div_le_one hnpos]
    have hterm : ∀ i ∈ Finset.range T.length,
        (if (List.zipWith (· + ·) T A).getD i 0 ≤ 0 then (0 : ℚ)
          else A.getD i 0 / (List.zipWith (· + ·) T A).getD i 0) ≤ 1 := by
      intro i hi
      by_cases hc : (List.zipWith (· + ·) T A).getD i 0 ≤ 0
      · rw [if_pos hc]
        norm_num
      · rw [if_neg hc]
        push_neg at hc
        rw [div_le_one hc, zipWith_add_getD T A hlen i (Finset.mem_range.mp hi)]
        exact le_add_of_nonneg_left (getD_nonneg T i hT)
    refine le_trans (Finset.sum_le_sum hterm) ?_
    simp

end Claims

section Witnesses

/-- Witness for C1 at `T = [1]`, `A = [1]`, `feeRate = 1/10`. -/
theorem C1_witness :
    ([(1 : ℚ)] : List ℚ).length = ([(1 : ℚ)] : List ℚ).length ∧
    (∀ x ∈ [(1 : ℚ)], 0 ≤ x) ∧
    ((compute_ev [(1 : ℚ)] [(1 : ℚ)] (1 / 10)).components.expected_return =
        specExpectedReturn [(1 : ℚ)] [(1 : ℚ)] ∧
      (compute_ev [(1 : ℚ)] [(1 : ℚ)] (1 / 10)).ev_sol_after_fees =
        specEv [(1 : ℚ)] [(1 : ℚ)] (1 / 10)) := by
  have hT : ∀ x ∈ [(1 : ℚ)], 0 ≤ x := by norm_num
  exact ⟨rfl, hT,
    C1_evaluate_matches_spec [(1 : ℚ)] [(1 : ℚ)] (1 / 10) rfl hT hT⟩

/-- Witness for C2 at `T = [0, 3]`, `unit = 1`, `fee = 0`, zero state, one
remaining unit: index 0 has the unique maximal delta and is committed. -/
theorem C2_witness :
    (0 : ℤ) < 1 ∧
    0 < (marginalDeltas [(0 : ℚ), 3] 1 0 [0, 0]).length ∧
    (∀ j, j < (marginalDeltas [(0 : ℚ), 3] 1 0 [0, 0]).length →
      (marginalDeltas [(0 : ℚ), 3] 1 0 [0, 0]).getD j 0 ≤
        (marginalDeltas [(0 : ℚ), 3] 1 0 [0, 0]).getD 0 0) ∧
    (∀ j, j < 0 →
      (marginalDeltas [(0 : ℚ), 3] 1 0 [0, 0]).getD j 0 <
        (marginalDeltas [(0 : ℚ), 3] 1 0 [0, 0]).getD 0 0) ∧
    tol < (marginalDeltas [(0 : ℚ), 3] 1 0 [0, 0]).getD 0 0 ∧
    (selectBest (marginalDeltas [(0 : ℚ), 3] 1 0 [0, 0]) =
        (some 0, (marginalDeltas [(0 : ℚ), 3] 1 0 [0, 0]).getD 0 0) ∧
      greedyLoop [(0 : ℚ), 3] 1 0 (0 + 1) [0, 0] 1 =
        greedyLoop [(0 : ℚ), 3] 1 0 0
          ([(0 : ℚ), 0].set 0 ([(0 : ℚ), 0].getD 0 0 + 1)) (1 - 1)) := by
  have hr : (0 : ℤ) < 1 := by norm_num
  have hi : 0 < (marginalDeltas [(0 : ℚ), 3] 1 0 [0, 0]).length := by
    simp [marginalDeltas]
  have hmax : ∀ j, j < (marginalDeltas [(0 : ℚ), 3] 1 0 [0, 0]).length →
      (marginalDeltas [(0 : ℚ), 3] 1 0 [0, 0]).getD j 0 ≤
        (marginalDeltas [(0 : ℚ), 3] 1 0 [0, 0]).getD 0 0 :=
    of_decide_eq_true (by with_unfolding_all rfl)
  have hfirst : ∀ j, j < 0 →
      (marginalDeltas [(0 : ℚ), 3] 1 0 [0, 0]).getD j 0 <
        (marginalDeltas [(0 : ℚ), 3] 1 0 [0, 0]).getD 0 0 :=
    fun j hj => absurd hj (Nat.not_lt_zero j)
  have htol : tol < (marginalDeltas [(0 : ℚ), 3] 1 0 [0, 0]).getD 0 0 :=
    of_decide_eq_true (by with_unfolding_all rfl)
  exact ⟨hr, hi, hmax, hfirst, htol,
    C2_tie_break_lowest_index [(0 : ℚ), 3] 1 0 [0, 0] 0 1 0 hr hi hmax hfirst htol⟩

/-- Witness for C3 at `T = [0, 3]`, `unit = 1`, `fee = 0`, zero state, one
remaining unit. -/
theorem C3_witness :
    (0 : ℤ) < 1 ∧
    (((selectBest (marginalDeltas [(0 : ℚ), 3] 1 0 [0, 0])).2 ≤ tol →
        greedyLoop [(0 : ℚ), 3] 1 0 (0 + 1) [0, 0] 1 = [0, 0]) ∧
      (tol < (selectBest (marginalDeltas [(0 : ℚ), 3] 1 0 [0, 0])).2 →
        ∃ i, (selectBest (marginalDeltas [(0 : ℚ), 3] 1 0 [0, 0])).1 = some i ∧
          greedyLoop [(0 : ℚ), 3] 1 0 (0 + 1) [0, 0] 1 =
            greedyLoop [(0 : ℚ), 3] 1 0 0
              ([(0 : ℚ), 0].set i ([(0 : ℚ), 0].getD i 0 + 1)) (1 - 1))) :=
  ⟨by norm_num, C3_stop_or_commit [(0 : ℚ), 3] 1 0 [0, 0] 0 1 (by norm_num)⟩

/-- Witness for C4 (amended) at `T = sampleT`, `budget = 0`, `unit = 1`. -/
theorem C4_witness :
    (0 : ℚ) ≤ 0 ∧ (0 : ℚ) < 1 ∧
    greedy_optimize sampleT 0 1 0 none = some (List.replicate 25 (0 : ℚ)) ∧
    (List.replicate 25 (0 : ℚ)).sum ≤ (pyRound ((0 : ℚ) / 1) : ℚ) * 1 := by
  have ha : greedy_optimize sampleT 0 1 0 none = some (List.replicate 25 (0 : ℚ)) := by
    with_unfolding_all rfl
  exact ⟨le_refl 0, by norm_num, ha,
    C4_budget_conservation_rounded sampleT 0 1 0 none (List.replicate 25 (0 : ℚ))
      (le_refl 0) (by norm_num) ha⟩

/-- Witness for C5 (amended) at `T = sampleT`, `budget = 1`, `unit = 1`. -/
theorem C5_witness :
    sampleT.length = 25 ∧ (1 : ℚ) ≠ 0 ∧
    ∃ a, greedy_optimize sampleT 1 1 0 none = some a ∧ a.length = 25 :=
  ⟨rfl, by norm_num, C5_defined_only_for_25 sampleT 1 1 0 none rfl (by norm_num)⟩

/-- Witness for C6 (amended) at `T = sampleT`, `budget = -1`, `unit = 1`. -/
theorem C6_witness :
    sampleT.length = 25 ∧ (0 : ℚ) < 1 ∧ (-1 : ℚ) ≤ 0 ∧
    greedy_optimize sampleT (-1) 1 0 none = some (List.replicate 25 (0 : ℚ)) :=
  ⟨rfl, by norm_num, by norm_num,
    C6_nonpos_budget_noop sampleT (-1) 1 0 none rfl (by norm_num) (by norm_num)⟩

/-- Witness for C7 (amended) at `T = sampleT`, `unit = 1`, `fee = 1/10`. -/
theorem C7_witness :
    sampleT.length = 25 ∧ (0 : ℚ) < 1 ∧
    (greedy_optimize sampleT 0 1 (1 / 10) none = some (List.replicate 25 (0 : ℚ)) ∧
      (compute_ev sampleT (List.replicate sampleT.length (0 : ℚ))
        (1 / 10)).ev_sol_after_fees = 0) :=
  ⟨rfl, by norm_num, C7_zero_budget_noop sampleT 1 (1 / 10) none rfl (by norm_num)⟩

/-- Witness for C8 at `T = [1, 2]`, `A = [1, 1]`, `f1 = 0`, `f2 = 1/2`. -/
theorem C8_witness :
    ([(1 : ℚ), 1] : List ℚ).length = ([(1 : ℚ), 2] : List ℚ).length ∧
    (∀ x ∈ [(1 : ℚ), 2], 0 ≤ x) ∧ (∀ x ∈ [(1 : ℚ), 1], 0 ≤ x) ∧
    (0 : ℚ) ≤ 0 ∧ (0 : ℚ) ≤ 1 / 2 ∧ (1 / 2 : ℚ) < 1 ∧
    (compute_ev [(1 : ℚ), 2] [(1 : ℚ), 1] (1 / 2)).ev_sol_after_fees ≤
      (compute_ev [(1 : ℚ), 2] [(1 : ℚ), 1] 0).ev_sol_after_fees := by
  have hT : ∀ x ∈ [(1 : ℚ), 2], 0 ≤ x := by norm_num
  have hA : ∀ x ∈ [(1 : ℚ), 1], 0 ≤ x := by norm_num
  exact ⟨rfl, hT, hA, le_refl 0, by norm_num, by norm_num,
    C8_fee_monotonicity [(1 : ℚ), 2] [(1 : ℚ), 1] 0 (1 / 2) rfl hT hA (le_refl 0)
      (by norm_num) (by norm_num)⟩

/-- Witness for C9 at `T = [1]`, `budget = 0`, `unit = 1`, `fee = 0`. -/
theorem C9_witness :
    (([(1 : ℚ)] : List ℚ) = [(1 : ℚ)] ∧ (0 : ℚ) = 0 ∧ (1 : ℚ) = 1 ∧ (0 : ℚ) = 0 ∧
      (none : Option ℤ) = none) ∧
    greedy_optimize [(1 : ℚ)] 0 1 0 none = greedy_optimize [(1 : ℚ)] 0 1 0 none :=
  ⟨⟨rfl, rfl, rfl, rfl, rfl⟩,
    C9_deterministic [(1 : ℚ)] [(1 : ℚ)] 0 0 1 1 0 0 none none ⟨rfl, rfl, rfl, rfl, rfl⟩⟩

/-- Witness for C10 at `T = [1]`, `A = [2]`, `fee = 1/2`. -/
theorem C10_witness :
    ([(2 : ℚ)] : List ℚ).length = ([(1 : ℚ)] : List ℚ).length ∧
    1 ≤ ([(1 : ℚ)] : List ℚ).length ∧
    (∀ x ∈ [(1 : ℚ)], 0 ≤ x) ∧ (∀ x ∈ [(2 : ℚ)], 0 ≤ x) ∧
    (0 ≤ (compute_ev [(1 : ℚ)] [(2 : ℚ)] (1 / 2)).components.ore_expected_raw ∧
      (compute_ev [(1 : ℚ)] [(2 : ℚ)] (1 / 2)).components.ore_expected_raw ≤ 1) := by
  have hT : ∀ x ∈ [(1 : ℚ)], 0 ≤ x := by norm_num
  have hA : ∀ x ∈ [(2 : ℚ)], 0 ≤ x := by norm_num
  exact ⟨rfl, le_refl 1, hT, hA,
    C10_rawOreShare_unit_interval [(1 : ℚ)] [(2 : ℚ)] (1 / 2) rfl (le_refl 1) hT hA⟩

end Witnesses

end OreBot
